import Mathlib

/-!
Verification of the personal finance tracker's core logic
(validators, search/filter/sort engine, statistics aggregator).

The JavaScript sources are shallowly embedded: pure functions become Lean
functions; JS numbers are modelled exactly (transaction amounts as `Int`,
budget arithmetic as `Rat`); the current wall-clock instant, which the
statistics code reads via `new Date()`, is passed explicitly as a
millisecond timestamp; the fallible `RegExp` constructor is modelled as a
function returning `Option`.
-/

namespace FinanceTracker

/-- Characters matched by the JS regex class `\s` (and removed by
`String.prototype.trim`), restricted to the code points exercised here:
space, tab, line feed, vertical tab, form feed, carriage return,
no-break space, line separator, paragraph separator. -/
def isSpaceChar (c : Char) : Bool :=
  c = ' ' || c = '\t' || c = '\n' || c = '\x0b' || c = '\x0c' || c = '\r' ||
  c = '\u00A0' || c = '\u2028' || c = '\u2029'

/-- ECMAScript line terminators: LF, CR, LS, PS.  The regex metacharacter
`.` (without the `s` flag) matches every character except these. -/
def isLineTerm (c : Char) : Bool :=
  c = '\n' || c = '\r' || c = '\u2028' || c = '\u2029'

/-- Characters matched by the JS regex class `\w`: ASCII letters, ASCII
digits, and underscore. -/
def isWordChar (c : Char) : Bool :=
  c.isAlpha || c.isDigit || c = '_'

/-- `String.prototype.trim`: strip leading and trailing `\s` characters. -/
def jsTrim (s : String) : String :=
  ⟨((s.data.dropWhile isSpaceChar).reverse.dropWhile isSpaceChar).reverse⟩

/-- Numeric value of a non-empty all-digit string (the effect of JS
`Number(part)` on the digit substrings produced by the date regex). -/
def strInt (s : String) : Int :=
  s.data.foldl (fun n c => n * 10 + (Int.ofNat c.toNat - 48)) 0

/-! ### Proleptic Gregorian calendar arithmetic

`new Date(y, m, d)` and the parsing of `"YYYY-MM-DD"` date strings both
reduce, in ECMAScript, to the `MakeDay` day-number arithmetic on the
proleptic Gregorian calendar.  `daysFromCivil`/`civilFromDays` are the
standard bijections between a civil date and its day count since
1970-01-01 (Howard Hinnant's algorithm, which is what `MakeDay` /
`YearFromTime`/`MonthFromTime`/`DateFromTime` compute). -/

/-- Day count since 1970-01-01 of the civil date `(y, m, d)`,
`m ∈ [1,12]`; `d` may lie outside the month and rolls over, exactly as
ECMAScript `MakeDay` does. -/
def daysFromCivil (y m d : Int) : Int :=
  let y1 : Int := y - (if m ≤ 2 then 1 else 0)
  let era : Int := y1 / 400
  let yoe : Int := y1 - era * 400
  let doy : Int := (153 * (m + (if m > 2 then -3 else 9)) + 2) / 5 + d - 1
  let doe : Int := yoe * 365 + yoe / 4 - yoe / 100 + doy
  era * 146097 + doe - 719468

/-- Civil date `(year, month 1-12, day)` of a day count since 1970-01-01
(the combination `YearFromTime`/`MonthFromTime`/`DateFromTime` of
ECMAScript, i.e. `getFullYear`/`getMonth`+1/`getDate` in UTC). -/
def civilFromDays (z0 : Int) : Int × Int × Int :=
  let z : Int := z0 + 719468
  let era : Int := z / 146097
  let doe : Int := z - era * 146097
  let yoe : Int :=
    (doe - doe / 1460 + doe / 36524 - doe / 146096) / 365
  let y : Int := yoe + era * 400
  let doy : Int := doe - (365 * yoe + yoe / 4 - yoe / 100)
  let mp : Int := (5 * doy + 2) / 153
  let d : Int := doy - (153 * mp + 2) / 5 + 1
  let m : Int := mp + (if mp < 10 then 3 else -9)
  (y + (if m ≤ 2 then 1 else 0), m, d)

/-- `new Date(year, monthIndex, day)` (local time, modelled as UTC):
the month index is normalised into `[0,11]` carrying whole years, then
the day offset is added; returns `(getFullYear, getMonth + 1, getDate)`. -/
def jsDateYMD (y monthIndex day : Int) : Int × Int × Int :=
  let ym : Int := y + monthIndex / 12
  let mm : Int := monthIndex % 12
  civilFromDays (daysFromCivil ym (mm + 1) 1 + (day - 1))

/-- One day in milliseconds. -/
def dayMs : Int := 86400000

/-- `REGEX_PATTERNS.date`, the test of
`/^\d{4}-(0[1-9]|1[0-2])-(0[1-9]|[12]\d|3[01])$/`:
four digits, dash, month 01-12, dash, day 01-31. -/
def dateRegexTest (s : String) : Bool :=
  match s.data with
  | [y1, y2, y3, y4, h1, m1, m2, h2, d1, d2] =>
    y1.isDigit && y2.isDigit && y3.isDigit && y4.isDigit &&
    h1 = '-' && h2 = '-' &&
    ((m1 = '0' && m2.isDigit && m2 ≠ '0') ||
     (m1 = '1' && (m2 = '0' || m2 = '1' || m2 = '2'))) &&
    ((d1 = '0' && d2.isDigit && d2 ≠ '0') ||
     ((d1 = '1' || d1 = '2') && d2.isDigit) ||
     (d1 = '3' && (d2 = '0' || d2 = '1')))
  | _ => false

/-- `String.prototype.split` with a single-character separator. -/
def splitOnChar (sep : Char) : List Char → List (List Char)
  | [] => [[]]
  | c :: cs =>
    let r := splitOnChar sep cs
    if c = sep then [] :: r
    else
      match r with
      | [] => [[c]]
      | x :: xs => (c :: x) :: xs

/-- `value.split('-')` on a string. -/
def jsSplitDash (s : String) : List String :=
  (splitOnChar '-' s.data).map fun cs => ⟨cs⟩

/-- `new Date(dateString).getTime()` for the date-only strings this app
stores: a string in the `YYYY-MM-DD` date-time-string format parses to
the UTC-midnight timestamp of that day (with `MakeDay` rollover of
out-of-range days, e.g. `"2025-02-29"` is 2025-03-01); anything else
yields an invalid date (`NaN` time value), modelled as `none`. -/
def jsParseDateMs (s : String) : Option Int :=
  if dateRegexTest s then
    let parts := jsSplitDash s
    let y := strInt (parts.getD 0 "")
    let m := strInt (parts.getD 1 "")
    let d := strInt (parts.getD 2 "")
    some ((daysFromCivil y m 1 + (d - 1)) * dayMs)
  else none

/-- `REGEX_PATTERNS.amount`, the test of `/^(0|[1-9]\d*)(\.\d{1,2})?$/`:
the leading maximal digit run must be `0` itself or start with a nonzero
digit, and the remainder must be empty or a dot followed by one or two
digits. -/
def amountRegexTest (s : String) : Bool :=
  let intPart := s.data.takeWhile Char.isDigit
  let rest := s.data.dropWhile Char.isDigit
  (match intPart with
   | [] => false
   | [c] => c.isDigit
   | c :: _ :: _ => c.isDigit && c ≠ '0') &&
  (match rest with
   | [] => true
   | c :: ds => c = '.' && ds.all Char.isDigit && (ds.length = 1 || ds.length = 2))

/-- `parseFloat(value)` on a string accepted by the amount regex is the
exact decimal the string spells (at most two fractional digits, so it is
exactly representable); the code only compares it with 0, so the value
is modelled exactly in hundredths — scaling by 100 preserves the sign. -/
def parseAmountCents (s : String) : Int :=
  let intPart := s.data.takeWhile Char.isDigit
  let frac := (s.data.dropWhile Char.isDigit).drop 1
  strInt ⟨intPart⟩ * 100 + strInt ⟨frac⟩ * (if frac.length = 1 then 10 else 1)

/- `REGEX_PATTERNS.category` is `/^[A-Za-z]+(?:[ -][A-Za-z]+)*$/`:
one or more letter runs separated by single spaces or hyphens.
`catRun` expects at least one letter; `catCont` continues after one. -/
mutual

/-- See the comment on `mutual` above. -/
def catRun : List Char → Bool
  | [] => false
  | c :: cs => c.isAlpha && catCont cs

def catCont : List Char → Bool
  | [] => true
  | c :: cs => if c.isAlpha then catCont cs else (c = ' ' || c = '-') && catRun cs

end

def categoryRegexTest (s : String) : Bool := catRun s.data

/-- `^\S(?:.*\S)?$` (`REGEX_PATTERNS.description`): the first and last
characters are non-whitespace and, since `.` does not match line
terminators, no character strictly between them is a line terminator. -/
def descriptionRegexTest (s : String) : Bool :=
  match s.data with
  | [] => false
  | c :: cs =>
    !isSpaceChar c &&
    !isSpaceChar (cs.getLastD c) &&
    cs.dropLast.all (fun x => !isLineTerm x)

/-- Maximal runs of equal `isWordChar`-status characters, left to right,
each tagged with whether it is a word run. -/
def charRuns : List Char → List (Bool × List Char)
  | [] => []
  | c :: cs =>
    match charRuns cs with
    | [] => [(isWordChar c, [c])]
    | (b, r) :: rest =>
      if isWordChar c = b then (b, c :: r) :: rest
      else (isWordChar c, [c]) :: (b, r) :: rest

/-- Case-insensitive equality of two character runs (the `/i` flag). -/
def lowerEq (a b : List Char) : Bool :=
  a.map Char.toLower = b.map Char.toLower

/-- Whether adjacent word runs repeat: two maximal word runs whose
separating run is pure whitespace and which agree case-insensitively. -/
def dupInRuns : List (Bool × List Char) → Bool
  | (true, w1) :: (false, g) :: (true, w2) :: rest =>
    (g.all isSpaceChar && lowerEq w1 w2) || dupInRuns ((true, w2) :: rest)
  | _ :: rest => dupInRuns rest
  | [] => false

/-- `REGEX_PATTERNS.duplicateWord`, the test of `/\b(\w+)\s+\1\b/i`.
A match forces the captured group to be a complete maximal word run
(it starts at a word boundary and is followed by `\s`) and the
back-reference to be another complete maximal word run (preceded by
whitespace, followed by a boundary), the two separated by `\s+` alone
and equal up to case; so the test holds exactly when some two adjacent
maximal word runs are separated by pure whitespace and agree
case-insensitively. -/
def duplicateWordTest (s : String) : Bool :=
  dupInRuns (charRuns s.data)

/-! ### Validators (validators.js) -/

/-- The `{ valid, message }` objects returned by the field validators. -/
structure VResult where
  valid : Bool
  message : String
deriving DecidableEq, Repr

/-- `validateDescription`. -/
def validateDescription (value : String) : VResult :=
  if value = "" || jsTrim value = "" then
    ⟨false, "Description is required"⟩
  else if !descriptionRegexTest value then
    ⟨false, "Description cannot start or end with a space"⟩
  else if duplicateWordTest value then
    ⟨false, "Description has a repeated word (e.g. \"the the\")"⟩
  else
    ⟨true, ""⟩

/-- `validateAmount`.  The `parseFloat` defence-in-depth check
(`number < 0`) is kept even though the grammar excludes a minus sign. -/
def validateAmount (value : String) : VResult :=
  if value = "" || jsTrim value = "" then
    ⟨false, "Amount is required"⟩
  else if !amountRegexTest value then
    ⟨false, "Enter a valid amount like 10 or 10.50"⟩
  else if parseAmountCents value < 0 then
    ⟨false, "Amount cannot be negative"⟩
  else
    ⟨true, ""⟩

/-- The `isRealDate` round-trip check of `validateDate`: split the
string on dashes, build `new Date(year, month - 1, day)`, and require
`getFullYear`/`getMonth`/`getDate` to reproduce year, month, day. -/
def dateRoundTrips (value : String) : Bool :=
  let parts := jsSplitDash value
  let year := strInt (parts.getD 0 "")
  let month := strInt (parts.getD 1 "")
  let day := strInt (parts.getD 2 "")
  jsDateYMD year (month - 1) day = (year, month, day)

/-- `validateDate`: syntactic regex check first, then the semantic
round-trip through `new Date(year, month - 1, day)`. -/
def validateDate (value : String) : VResult :=
  if value = "" || jsTrim value = "" then
    ⟨false, "Date is required"⟩
  else if !dateRegexTest value then
    ⟨false, "Date must be in YYYY-MM-DD format (e.g. 2025-09-29)"⟩
  else if !dateRoundTrips value then
    ⟨false, "That date does not exist (e.g. Feb 30 is invalid)"⟩
  else
    ⟨true, ""⟩

/-- `validateCategory`. -/
def validateCategory (value : String) : VResult :=
  if value = "" || jsTrim value = "" then
    ⟨false, "Please select a category"⟩
  else if !categoryRegexTest value then
    ⟨false, "Category can only contain letters, spaces, and hyphens"⟩
  else
    ⟨true, ""⟩

/-! ### The transaction record -/

/-- A committed transaction record.  JS numbers are IEEE doubles; every
amount a claim exercises is integral, so amounts are modelled as `Int`. -/
structure Transaction where
  id : String
  description : String
  amount : Int
  category : String
  date : String
  createdAt : String
  updatedAt : String
deriving DecidableEq, Repr

/-- `String(txn.amount)` for the integral amounts modelled here. -/
def jsNumToString (n : Int) : String := toString n

/-- The `errors` object collected by `validateTransaction`
(`errors.f = some m` models `errors.f = m`; `none` models a field
absent from the object). -/
structure TxnErrors where
  description : Option String
  amount : Option String
  date : Option String
  category : Option String
deriving DecidableEq, Repr

/-- The `{ valid, errors }` result of `validateTransaction`. -/
structure TxnVResult where
  valid : Bool
  errors : TxnErrors
deriving DecidableEq, Repr

/-- `validateTransaction`: runs all four field validators and collects
failures.  The amount is passed as `String(transaction.amount || '')`,
so a falsy amount (the number 0) is coerced to the empty string. -/
def validateTransaction (t : Transaction) : TxnVResult :=
  let descCheck := validateDescription t.description
  let amountCheck := validateAmount (if t.amount = 0 then "" else jsNumToString t.amount)
  let dateCheck := validateDate t.date
  let categoryCheck := validateCategory t.category
  let errors : TxnErrors :=
    { description := if descCheck.valid then none else some descCheck.message
      amount := if amountCheck.valid then none else some amountCheck.message
      date := if dateCheck.valid then none else some dateCheck.message
      category := if categoryCheck.valid then none else some categoryCheck.message }
  { valid := errors.description = none && errors.amount = none &&
             errors.date = none && errors.category = none
    errors := errors }

/-! ### Search / filter / sort engine (search.js)

A compiled `RegExp` object is abstracted by its observable behaviour:
a boolean containment test (`regex.test(s)`, no `g` flag) and a
global-replacement operation (`s.replace(globalRegex, fn)`, every
non-overlapping match replaced by `fn(match)`). -/

/-- Abstract compiled matcher. -/
structure JSRegex where
  test : String → Bool
  replaceAll : String → (String → String) → String

/-- `compileRegex(input, caseSensitive)`.  The fallible constructor
`new RegExp(input, flags)` is passed in as a function returning `none`
where the real constructor throws `SyntaxError`; the `try/catch` turns
that failure into `null` (`none`). -/
def compileRegex (newRegExp : String → String → Option JSRegex)
    (input : String) (caseSensitive : Bool) : Option JSRegex :=
  if input = "" || jsTrim input = "" then none
  else
    let flags := if caseSensitive then "" else "i"
    match newRegExp input flags with
    | some r => some r
    | none => none

/-- `makeGlobalRegex`: `new RegExp(regex.source, flags + 'g')` on an
already-compiled regex re-parses the same (valid) source, so it cannot
throw, and the fresh object has the same matching behaviour; in this
abstraction it is the same matcher, whose `replaceAll` field already
carries the global-replacement semantics. -/
def makeGlobalRegex (r : JSRegex) : JSRegex := r

/-- `escapeHtml` via `div.textContent = text; div.innerHTML`: serialising
a text node escapes `&`, `<`, `>` (and no-break space). -/
def escapeHtmlChar (c : Char) : String :=
  if c = '&' then "&amp;"
  else if c = '<' then "&lt;"
  else if c = '>' then "&gt;"
  else if c = '\u00A0' then "&nbsp;"
  else ⟨[c]⟩

/-- `escapeHtml(text)`. -/
def escapeHtml (text : String) : String :=
  ⟨(text.data.map fun c => (escapeHtmlChar c).data).flatten⟩

/-- `highlight(text, regex)`: escape the text first, then wrap every
match of the global matcher in `<mark>` tags. -/
def highlight (text : String) (regex : Option JSRegex) : String :=
  match regex with
  | none => escapeHtml text
  | some r =>
    if text = "" then escapeHtml text
    else
      (makeGlobalRegex r).replaceAll (escapeHtml text)
        (fun m => "<mark>" ++ m ++ "</mark>")

/-- `searchTransactions(transactions, searchRegex)`: `null` matcher
passes everything, otherwise keep records where the matcher matches
description, stringified amount, category, or date. -/
def searchTransactions (transactions : List Transaction)
    (searchRegex : Option JSRegex) : List Transaction :=
  match searchRegex with
  | none => transactions
  | some r =>
    transactions.filter fun txn =>
      r.test txn.description || r.test (jsNumToString txn.amount) ||
      r.test txn.category || r.test txn.date

/-- `filterByCategory(transactions, category)`. -/
def filterByCategory (transactions : List Transaction)
    (category : String) : List Transaction :=
  if category = "" then transactions
  else transactions.filter fun txn => txn.category = category

/-! A concrete matcher, used to instantiate the abstract `JSRegex` with
the semantics of a literal (metacharacter-free) pattern such as `/amp/`. -/

/-- Strip `lit` from the front of `cs`, if it is a prefix. -/
def dropPre : List Char → List Char → Option (List Char)
  | [], cs => some cs
  | _ :: _, [] => none
  | l :: ls, c :: cs => if c = l then dropPre ls cs else none

/-- Whether `lit` occurs in `cs` (the `test` of a literal pattern). -/
def hasLit (lit : List Char) : List Char → Bool
  | [] => decide (lit = [])
  | c :: cs => (dropPre lit (c :: cs)).isSome || hasLit lit cs

/-- Replace every leftmost non-overlapping occurrence of `lit` by `rep`
(fuelled so the recursion is structural; fuel `= cs.length` suffices
for non-empty `lit`). -/
def litReplace (lit rep : List Char) : Nat → List Char → List Char
  | _, [] => []
  | 0, cs => cs
  | fuel + 1, c :: cs =>
    match dropPre lit (c :: cs) with
    | some rest => rep ++ litReplace lit rep fuel rest
    | none => c :: litReplace lit rep fuel cs

/-- The compiled form of a literal, metacharacter-free pattern. -/
def litRegex (lit : String) : JSRegex :=
  { test := fun s => hasLit lit.data s.data
    replaceAll := fun s f => ⟨litReplace lit.data (f lit).data s.data.length s.data⟩ }

/-! ### Statistics aggregator (`calculateStats` in state.js)

The code reads the wall clock (`new Date()`); the embedding passes the
current instant explicitly as `nowMs`, a millisecond timestamp, and
works in UTC.  `dailyTotals`, which no claim touches, is omitted. -/

/-- A running sum `total += txn.amount` guarded by a per-record test —
the shape of every accumulation loop in `calculateStats`. -/
def sumWhere (p : Transaction → Bool) (ts : List Transaction) : Int :=
  ts.foldl (fun acc t => if p t then acc + t.amount else acc) 0

/-- First-encounter order of the keys of the `categoryTotals` object:
JS string keys that are not array indices iterate in insertion order,
and the category grammar excludes numeric names. -/
def namesAux (seen : List String) : List Transaction → List String
  | [] => []
  | t :: ts =>
    if t.category ∈ seen then namesAux seen ts
    else t.category :: namesAux (seen ++ [t.category]) ts

/-- `Object.keys(categoryTotals)` in iteration order. -/
def categoryNames (ts : List Transaction) : List String :=
  namesAux [] ts

/-- The final value of `categoryTotals[cat]`: every matching amount
added in. -/
def categoryTotal (ts : List Transaction) (cat : String) : Int :=
  sumWhere (fun t => t.category = cat) ts

/-- The top-category loop: start from `('None', 0)` and replace the
accumulator whenever a category's total is strictly greater. -/
def topFold (tot : String → Int) : List String → String × Int → String × Int
  | [], acc => acc
  | c :: cs, (top, amt) =>
    if tot c > amt then topFold tot cs (c, tot c)
    else topFold tot cs (top, amt)

/-- `new Date(txn.date) >= sevenDaysAgo` — `false` when the date string
does not parse (an invalid date's time value `NaN` compares false). -/
def dateOnOrAfter (s : String) (cutoffMs : Int) : Bool :=
  match jsParseDateMs s with
  | some ms => cutoffMs ≤ ms
  | none => false

/-- The statistics record returned by `calculateStats` (the fields the
claims exercise). -/
structure Stats where
  total : Nat
  totalExpenses : Int
  topCategory : String
  weekTotal : Int
  budgetCap : ℚ
deriving Repr

/-- `calculateStats()`, with the transaction collection, the stored
budget cap, and the current instant made explicit. -/
def calculateStats (transactions : List Transaction) (budgetCap : ℚ)
    (nowMs : Int) : Stats :=
  { total := transactions.length
    totalExpenses := sumWhere (fun _ => true) transactions
    topCategory :=
      (topFold (categoryTotal transactions) (categoryNames transactions)
        ("None", 0)).1
    weekTotal :=
      sumWhere (fun t => dateOnOrAfter t.date (nowMs - 7 * dayMs)) transactions
    budgetCap := budgetCap }

/-! ### Budget-cap comparison (`renderBudgetCap` in ui.js)

Only the computation is modelled: given the cap and the spent total it
either suppresses the display (cap unset) or produces a classification
and the remaining amount.  The arithmetic is exact rational arithmetic. -/

/-- The three classification states of the budget display. -/
inductive CapState where
  | over
  | warning
  | normal
deriving DecidableEq, Repr

/-- The decision logic of `renderBudgetCap`: `none` models the
early-return display-clearing branch (`!cap || cap === 0`). -/
def renderBudgetCap (cap spent : ℚ) : Option (CapState × ℚ) :=
  if cap = 0 then none
  else
    let percentage := spent / cap * 100
    let remaining := cap - spent
    if percentage ≥ 100 then some (.over, remaining)
    else if percentage ≥ 80 then some (.warning, remaining)
    else some (.normal, remaining)

/-! ### Sorting (`sortTransactions` in search.js)

`Array.prototype.sort` is a stable sort ordered by the comparator
(ES2019); a straight insertion sort placing each element before the
first existing element it does not have to follow is such a sort, and
is used as the model. -/

/-- Insert `x` before the first element `y` with `le x y`; with
`le x y := cmp x y ≤ 0` this keeps `x` ahead of elements comparing equal
to it, as stability requires of an element originally further left. -/
def insertSorted (le : α → α → Bool) (x : α) : List α → List α
  | [] => [x]
  | y :: ys => if le x y then x :: y :: ys else y :: insertSorted le x ys

/-- Stable sort by the boolean relation `le`. -/
def stableSortBy (le : α → α → Bool) : List α → List α
  | [] => []
  | x :: xs => insertSorted le x (stableSortBy le xs)

/-- The `date-desc` comparator `new Date(b.date) - new Date(a.date)`.
If either date is invalid the subtraction is `NaN`, which the sort
machinery treats as `+0` (ECMAScript `SortCompare`). -/
def cmpDateDesc (a b : Transaction) : Int :=
  match jsParseDateMs a.date, jsParseDateMs b.date with
  | some x, some y => y - x
  | _, _ => 0

/-- The `date-asc` comparator `new Date(a.date) - new Date(b.date)`. -/
def cmpDateAsc (a b : Transaction) : Int :=
  match jsParseDateMs a.date, jsParseDateMs b.date with
  | some x, some y => x - y
  | _, _ => 0

/-- `a.localeCompare(b)`, modelled as code-point comparison (the locale
refinements are irrelevant to every claim; only the sign is used). -/
def localeCmp (a b : String) : Int :=
  if a < b then -1 else if b < a then 1 else 0

/-- `sortTransactions(transactions, sortBy)`: copy, then sort the copy
with the comparator selected by `sortBy`; an unknown key leaves the
copy in the input order. -/
def sortTransactions (transactions : List Transaction) (sortBy : String) :
    List Transaction :=
  if sortBy = "date-desc" then
    stableSortBy (fun a b => cmpDateDesc a b ≤ 0) transactions
  else if sortBy = "date-asc" then
    stableSortBy (fun a b => cmpDateAsc a b ≤ 0) transactions
  else if sortBy = "desc-asc" then
    stableSortBy (fun a b => localeCmp a.description b.description ≤ 0) transactions
  else if sortBy = "desc-desc" then
    stableSortBy (fun a b => localeCmp b.description a.description ≤ 0) transactions
  else if sortBy = "amount-desc" then
    stableSortBy (fun a b => b.amount - a.amount ≤ 0) transactions
  else if sortBy = "amount-asc" then
    stableSortBy (fun a b => a.amount - b.amount ≤ 0) transactions
  else transactions

/-! ### Specification-side definitions

These follow the wording of the specification sentences under test (not
the code) and exist to be compared with the code-derived definitions
above. -/

/-- Calendar-day index (days since 1970-01-01) of a transaction's date
string, when it parses. -/
def dateDayIdx (s : String) : Option Int :=
  (jsParseDateMs s).map fun ms => ms / dayMs

/-- Modelled from the claim under test: `weekTotal` as the sum of
amounts over transactions whose `date` is one of the 7 calendar dates
ending today (today and the 6 preceding days), a function of the
calendar date of `nowMs` only. -/
def claimWeekTotal (ts : List Transaction) (nowMs : Int) : Int :=
  let today := nowMs / dayMs
  sumWhere (fun t =>
    match dateDayIdx t.date with
    | some d => today - 6 ≤ d && d ≤ today
    | none => false) ts

/-- The amended description of the code's `weekTotal` (valid whenever
the current time is strictly after UTC midnight): transactions dated
`today - 6` or later — the 7 calendar dates ending today together with
every future-dated transaction. -/
def amendedWeekTotal (ts : List Transaction) (nowMs : Int) : Int :=
  let today := nowMs / dayMs
  sumWhere (fun t =>
    match dateDayIdx t.date with
    | some d => today - 6 ≤ d
    | none => false) ts

/-- Modelled from the claim under test: `topCategory` as the category
with the strictly largest total, ties to the first encountered, and
`"None"` only for the empty collection. -/
def claimTopCategory (ts : List Transaction) : String :=
  match categoryNames ts with
  | [] => "None"
  | c :: cs => (topFold (categoryTotal ts) cs (c, categoryTotal ts c)).1

/-- Whether the first or last character is whitespace (one limb of the
claimed rejection condition for descriptions). -/
def firstOrLastSpace (s : String) : Bool :=
  match s.data with
  | [] => false
  | c :: cs => isSpaceChar c || isSpaceChar (cs.getLastD c)

/-- Whether the string contains an ECMAScript line terminator. -/
def containsLineTerm (s : String) : Bool :=
  s.data.any isLineTerm

/-- Modelled from the claim under test: `validateDescription` rejects
exactly the empty/all-whitespace strings, strings with a whitespace
first or last character, and strings with a whitespace-separated
case-insensitive duplicate word. -/
def claimC7Rejects (s : String) : Bool :=
  jsTrim s = "" || firstOrLastSpace s || duplicateWordTest s

/-- The amended rejection condition: additionally any string containing
a line terminator anywhere (`.` in the first/last-character pattern
does not match line terminators). -/
def amendedC7Rejects (s : String) : Bool :=
  jsTrim s = "" || firstOrLastSpace s || containsLineTerm s || duplicateWordTest s

/-! ### Concrete fixtures used by witnesses and counterexamples -/

/-- A `new RegExp` constructor behaviour on which construction throws
(e.g. the unbalanced quantifier `"++"`): the `try` branch fails. -/
def invalidRegExpCtor : String → String → Option JSRegex := fun _ _ => none

/-- A sample committed transaction. -/
def c1tx : Transaction :=
  ⟨"t1", "Coffee", 5, "Food", "2025-01-02", "c1", "u1"⟩

/-- A transaction dated 2024-10-01. -/
def c2tx : Transaction :=
  ⟨"w1", "Lunch", 5, "Food", "2024-10-01", "c2", "u2"⟩

/-- The instant of UTC midnight, 2024-10-08 — exactly seven days after
the date of `c2tx`. -/
def c2now : Int := (jsParseDateMs "2024-10-08").getD 0

/-- The `{Food: 30, Food: 20, Books: 10}` example collection. -/
def c3Example : List Transaction :=
  [⟨"e1", "groceries", 30, "Food", "2025-01-02", "c", "u"⟩,
   ⟨"e2", "snacks", 20, "Food", "2025-01-03", "c", "u"⟩,
   ⟨"e3", "novel", 10, "Books", "2025-01-04", "c", "u"⟩]

/-- A non-empty collection whose only transaction has amount 0. -/
def c3Zero : List Transaction :=
  [⟨"z1", "freebie", 0, "Food", "2025-01-02", "c", "u"⟩]

/-- Two transactions with valid, distinct dates. -/
def sortTx1 : Transaction :=
  ⟨"s1", "older", 3, "Food", "2025-01-02", "c", "u"⟩

/-- Companion to `sortTx1`. -/
def sortTx2 : Transaction :=
  ⟨"s2", "newer", 4, "Books", "2025-03-05", "c", "u"⟩

/-- A transaction whose amount is the falsy number 0. -/
def c8tx : Transaction :=
  ⟨"f1", "gift", 0, "Gifts", "2025-01-02", "c", "u"⟩

/-! ### Helper lemmas: guarded sums -/

/-- Two guarded sums agree when the guards agree on the list. -/
lemma sumWhere_congr (p q : Transaction → Bool) :
    ∀ (ts : List Transaction), (∀ t ∈ ts, p t = q t) →
      ∀ (init : Int),
        ts.foldl (fun acc t => if p t then acc + t.amount else acc) init =
        ts.foldl (fun acc t => if q t then acc + t.amount else acc) init := by
  intro ts
  induction ts with
  | nil => intro _ _; rfl
  | cons t ts ih =>
    intro h init
    have ht : p t = q t := h t (by simp)
    have hrest : ∀ u ∈ ts, p u = q u := fun u hu => h u (by simp [hu])
    simp only [List.foldl_cons, ht]
    exact ih hrest _

/-- A guarded sum over a list of zero amounts is its initial value. -/
lemma sumWhere_zero_amounts (p : Transaction → Bool) :
    ∀ (ts : List Transaction), (∀ t ∈ ts, t.amount = 0) →
      ∀ (init : Int),
        ts.foldl (fun acc t => if p t then acc + t.amount else acc) init = init := by
  intro ts
  induction ts with
  | nil => intro _ _; rfl
  | cons t ts ih =>
    intro h init
    have ht : t.amount = 0 := h t (by simp)
    have hrest : ∀ u ∈ ts, u.amount = 0 := fun u hu => h u (by simp [hu])
    simp only [List.foldl_cons, ht, add_zero, if_pos, ite_self]
    exact ih hrest init

/-! ### Helper lemmas: the top-category fold -/

/-- Invariant of the top-category loop: starting from `(t, a)`, either
no total beats `a` and the accumulator survives unchanged, or the
result is the first name whose total strictly exceeds `a` and every
total before it — a strict maximum over a prefix scan. -/
lemma topFold_spec (tot : String → Int) :
    ∀ (ns : List String) (t : String) (a : Int),
      (topFold tot ns (t, a) = (t, a) ∧ ∀ c ∈ ns, tot c ≤ a) ∨
      (∃ pre c post, ns = pre ++ c :: post ∧
        topFold tot ns (t, a) = (c, tot c) ∧ a < tot c ∧
        (∀ x ∈ pre, tot x < tot c) ∧ (∀ x ∈ post, tot x ≤ tot c)) := by
  intro ns
  induction ns with
  | nil => intro t a; left; exact ⟨rfl, by simp⟩
  | cons c cs ih =>
    intro t a
    by_cases hc : tot c > a
    · have hstep : topFold tot (c :: cs) (t, a) = topFold tot cs (c, tot c) := by
        simp [topFold, hc]
      rcases ih c (tot c) with ⟨heq, hall⟩ | ⟨pre, c', post, hns, heq, hlt, hpre, hpost⟩
      · right
        refine ⟨[], c, cs, by simp, ?_, hc, by simp, hall⟩
        rw [hstep, heq]
      · right
        refine ⟨c :: pre, c', post, by simp [hns], ?_, lt_trans hc hlt, ?_, hpost⟩
        · rw [hstep, heq]
        · intro x hx
          rcases List.mem_cons.1 hx with hx | hx
          · rw [hx]; exact hlt
          · exact hpre x hx
    · have hstep : topFold tot (c :: cs) (t, a) = topFold tot cs (t, a) := by
        simp [topFold, hc]
      have hca : tot c ≤ a := le_of_not_lt hc
      rcases ih t a with ⟨heq, hall⟩ | ⟨pre, c', post, hns, heq, hlt, hpre, hpost⟩
      · left
        constructor
        · rw [hstep, heq]
        · intro x hx
          rcases List.mem_cons.1 hx with hx | hx
          · rw [hx]; exact hca
          · exact hall x hx
      · right
        refine ⟨c :: pre, c', post, by simp [hns], ?_, hlt, ?_, hpost⟩
        · rw [hstep, heq]
        · intro x hx
          rcases List.mem_cons.1 hx with hx | hx
          · rw [hx]; exact lt_of_le_of_lt hca hlt
          · exact hpre x hx

/-! ### Helper lemmas: parsed dates are whole days -/

/-- A parsed date-string timestamp is a whole number of days. -/
lemma jsParseDateMs_mul (s : String) (ms : Int)
    (h : jsParseDateMs s = some ms) : ∃ k : Int, ms = k * dayMs := by
  unfold jsParseDateMs at h
  split at h
  · injection h with h
    exact ⟨_, h.symm⟩
  · cases h

/-- Pointwise agreement, away from midnight, of the code's week-window
test with the calendar-day threshold `today - 6 ≤ d`. -/
lemma dateOnOrAfter_eq_amended (nowMs : Int) (hmid : 0 < nowMs % dayMs)
    (s : String) :
    dateOnOrAfter s (nowMs - 7 * dayMs) =
      (match dateDayIdx s with
       | some d => decide (nowMs / dayMs - 6 ≤ d)
       | none => false) := by
  unfold dateOnOrAfter dateDayIdx
  cases h : jsParseDateMs s with
  | none => rfl
  | some ms =>
    obtain ⟨k, hk⟩ := jsParseDateMs_mul s ms h
    subst hk
    have hcancel : k * dayMs / dayMs = k :=
      Int.mul_ediv_cancel k (by norm_num [dayMs])
    simp only [Option.map_some', hcancel]
    have : (nowMs - 7 * dayMs ≤ k * dayMs) ↔ (nowMs / dayMs - 6 ≤ k) := by
      simp only [dayMs] at hmid ⊢
      omega
    simp [this]

/-! ### C1 — invalid search pattern -/

/-- C1 counterexample: with a transaction list `[c1tx]` and a pattern on
which `new RegExp` throws, `compileRegex` yields `null` and
`searchTransactions` returns the full list `[c1tx]` — not the empty
sequence the claim asserts. -/
theorem claim_C1_counterexample :
    compileRegex invalidRegExpCtor "++" false = none ∧
    searchTransactions [c1tx] (compileRegex invalidRegExpCtor "++" false) = [c1tx] ∧
    searchTransactions [c1tx] (compileRegex invalidRegExpCtor "++" false) ≠ [] := by
  refine ⟨rfl, rfl, ?_⟩
  intro h
  exact absurd h (by decide)

/-- C1 amended: for every transaction sequence and every pattern on
which the `RegExp` constructor throws, `compileRegex` returns `null`
instead of propagating the exception, and `searchTransactions` with
that `null` matcher returns the full input sequence unchanged — not an
empty sequence and not an error. -/
theorem claim_C1_amended :
    ∀ (ts : List Transaction) (newRegExp : String → String → Option JSRegex)
      (input : String) (caseSensitive : Bool),
      newRegExp input (if caseSensitive then "" else "i") = none →
      compileRegex newRegExp input caseSensitive = none ∧
      searchTransactions ts (compileRegex newRegExp input caseSensitive) = ts := by
  intro ts newRegExp input caseSensitive h
  have hc : compileRegex newRegExp input caseSensitive = none := by
    unfold compileRegex
    split
    · rfl
    · simp only [h]
  refine ⟨hc, ?_⟩
  rw [hc]
  rfl

/-- C1 witness: the amended statement applied to the concrete failing
constructor and the list `[c1tx]`. -/
theorem claim_C1_witness :
    compileRegex invalidRegExpCtor "++" false = none ∧
    searchTransactions [c1tx] (compileRegex invalidRegExpCtor "++" false) = [c1tx] :=
  claim_C1_amended [c1tx] invalidRegExpCtor "++" false rfl

/-! ### C2 — the week total -/

/-- C2 counterexample: at `nowMs = c2now`, exactly UTC midnight of
2024-10-08, the code's `weekTotal` includes the transaction dated
2024-10-01 (5), while the claimed 7-calendar-dates window (10-02 to
10-08) excludes it (0); and one millisecond later the code's own value
changes to 0, so it also depends on the time of day. -/
theorem claim_C2_counterexample :
    (calculateStats [c2tx] 0 c2now).weekTotal = 5 ∧
    claimWeekTotal [c2tx] c2now = 0 ∧
    (calculateStats [c2tx] 0 c2now).weekTotal ≠ claimWeekTotal [c2tx] c2now ∧
    (calculateStats [c2tx] 0 (c2now + 1)).weekTotal = 0 := by
  refine ⟨by decide, by decide, by decide, by decide⟩

/-- C2 amended: whenever the current instant is strictly after UTC
midnight, `weekTotal` is the sum of amounts over transactions dated
`today - 6` or later — the 7 calendar dates ending today plus any
future-dated transactions (and at exactly midnight the cut-off moves
one calendar day further back). -/
theorem claim_C2_amended :
    ∀ (ts : List Transaction) (cap : ℚ) (nowMs : Int),
      0 < nowMs % dayMs →
      (calculateStats ts cap nowMs).weekTotal = amendedWeekTotal ts nowMs := by
  intro ts cap nowMs hmid
  show sumWhere _ ts = sumWhere _ ts
  unfold sumWhere
  exact sumWhere_congr _ _ ts
    (fun t _ => dateOnOrAfter_eq_amended nowMs hmid t.date) 0

/-- C2 witness: the amended statement applied one millisecond after
midnight to the singleton collection `[c2tx]`. -/
theorem claim_C2_witness :
    (calculateStats [c2tx] 0 (c2now + 1)).weekTotal =
      amendedWeekTotal [c2tx] (c2now + 1) :=
  claim_C2_amended [c2tx] 0 (c2now + 1) (by decide)

/-! ### C3 and C9 — the top category -/

/-- C3 counterexample: on the non-empty all-zero-amount collection
`c3Zero`, the code returns `topCategory = "None"`, while the claim
(largest total, ties first-encountered, `"None"` only when empty)
demands `"Food"`. -/
theorem claim_C3_counterexample :
    (calculateStats c3Zero 0 0).topCategory = "None" ∧
    claimTopCategory c3Zero = "Food" ∧
    c3Zero ≠ [] ∧
    (calculateStats c3Zero 0 0).topCategory ≠ claimTopCategory c3Zero := by
  refine ⟨by decide, by decide, by decide, by decide⟩

/-- C3 amended: `topCategory` is the first-encountered category whose
total is strictly largest, provided that largest total is strictly
positive; it is `"None"` when the collection is empty or no category
total is strictly positive.  The `{Food: 30, Food: 20, Books: 10}`
example yields totals `Food = 50`, `Books = 10` and `topCategory =
"Food"`. -/
theorem claim_C3_amended :
    (∀ (ts : List Transaction) (cap : ℚ) (nowMs : Int),
      ((calculateStats ts cap nowMs).topCategory = "None" ∧
        ∀ c ∈ categoryNames ts, categoryTotal ts c ≤ 0) ∨
      (∃ pre c post, categoryNames ts = pre ++ c :: post ∧
        (calculateStats ts cap nowMs).topCategory = c ∧
        0 < categoryTotal ts c ∧
        (∀ x ∈ pre, categoryTotal ts x < categoryTotal ts c) ∧
        (∀ x ∈ post, categoryTotal ts x ≤ categoryTotal ts c))) ∧
    categoryTotal c3Example "Food" = 50 ∧
    categoryTotal c3Example "Books" = 10 ∧
    (calculateStats c3Example 0 0).topCategory = "Food" := by
  refine ⟨?_, by decide, by decide, by decide⟩
  intro ts cap nowMs
  have hproj : (calculateStats ts cap nowMs).topCategory
      = (topFold (categoryTotal ts) (categoryNames ts) ("None", 0)).1 := rfl
  rcases topFold_spec (categoryTotal ts) (categoryNames ts) "None" 0 with
    ⟨heq, hall⟩ | ⟨pre, c, post, hns, heq, hpos, hpre, hpost⟩
  · left
    exact ⟨by rw [hproj, heq], hall⟩
  · right
    exact ⟨pre, c, post, hns, by rw [hproj, heq], hpos, hpre, hpost⟩

/-- C9: on a non-empty collection all of whose amounts are 0, every
category total is 0, the strictly-greater test never fires against the
initial accumulator 0, and `topCategory` stays `"None"`. -/
theorem claim_C9 :
    ∀ (ts : List Transaction) (cap : ℚ) (nowMs : Int),
      ts ≠ [] → (∀ t ∈ ts, t.amount = 0) →
      (calculateStats ts cap nowMs).topCategory = "None" := by
  intro ts cap nowMs _hne hzero
  have hproj : (calculateStats ts cap nowMs).topCategory
      = (topFold (categoryTotal ts) (categoryNames ts) ("None", 0)).1 := rfl
  have htot : ∀ c ∈ categoryNames ts, categoryTotal ts c ≤ 0 := by
    intro c _
    unfold categoryTotal sumWhere
    rw [sumWhere_zero_amounts _ ts hzero 0]
  rcases topFold_spec (categoryTotal ts) (categoryNames ts) "None" 0 with
    ⟨heq, _⟩ | ⟨pre, c, post, hns, _, hpos, _, _⟩
  · rw [hproj, heq]
  · exfalso
    have hmem : c ∈ categoryNames ts := by rw [hns]; simp
    exact absurd (htot c hmem) (not_le.2 hpos)

/-- C9 witness: the concrete non-empty zero-amount collection. -/
theorem claim_C9_witness :
    (calculateStats c3Zero 0 0).topCategory = "None" :=
  claim_C9 c3Zero 0 0 (by decide) (by decide)

/-! ### Helper lemmas: the stable insertion sort -/

section SortLemmas

variable {α : Type} (le : α → α → Bool)

/-- Inserting preserves the multiset of elements. -/
lemma insertSorted_perm (x : α) :
    ∀ l : List α, (insertSorted le x l).Perm (x :: l) := by
  intro l
  induction l with
  | nil => exact List.Perm.refl _
  | cons y ys ih =>
    unfold insertSorted
    split
    · exact List.Perm.refl _
    · exact (ih.cons y).trans (List.Perm.swap x y ys)

/-- The sorted copy is a permutation of the input: the sort produces a
new sequence with the same records (the non-mutation contract). -/
lemma stableSortBy_perm : ∀ l : List α, (stableSortBy le l).Perm l := by
  intro l
  induction l with
  | nil => exact List.Perm.refl _
  | cons x xs ih =>
    unfold stableSortBy
    exact (insertSorted_perm le x _).trans (ih.cons x)

/-- Inserting into a `le`-chain yields a `le`-chain, provided `le` is
total. -/
lemma chain'_insertSorted (htot : ∀ a b, le a b = true ∨ le b a = true) (x : α) :
    ∀ l : List α, l.Chain' (fun a b => le a b = true) →
      (insertSorted le x l).Chain' (fun a b => le a b = true) := by
  intro l
  induction l with
  | nil => intro _; simp [insertSorted]
  | cons y ys ih =>
    intro h
    have hys : ys.Chain' (fun a b => le a b = true) := h.tail
    unfold insertSorted
    split
    · rename_i hxy
      exact List.chain'_cons.2 ⟨hxy, h⟩
    · rename_i hxy
      have hyx : le y x = true := by
        rcases htot x y with h1 | h1
        · exact absurd h1 hxy
        · exact h1
      cases ys with
      | nil =>
        show List.Chain' (fun a b => le a b = true) [y, x]
        exact List.chain'_pair.2 hyx
      | cons z zs =>
        have hyz : le y z = true := (List.chain'_cons.1 h).1
        have hins := ih hys
        by_cases hxz : le x z = true
        · rw [show insertSorted le x (z :: zs) = x :: z :: zs from by
            simp [insertSorted, hxz]] at hins ⊢
          exact List.chain'_cons.2 ⟨hyx, hins⟩
        · rw [show insertSorted le x (z :: zs) = z :: insertSorted le x zs from by
            simp [insertSorted, hxz]] at hins ⊢
          exact List.chain'_cons.2 ⟨hyz, hins⟩

/-- The sort output is ordered (consecutive elements satisfy `le`). -/
lemma chain'_stableSortBy (htot : ∀ a b, le a b = true ∨ le b a = true) :
    ∀ l : List α, (stableSortBy le l).Chain' (fun a b => le a b = true) := by
  intro l
  induction l with
  | nil => simp [stableSortBy]
  | cons x xs ih =>
    unfold stableSortBy
    exact chain'_insertSorted le htot x _ ih

/-- Sorting a list that is already ordered returns it unchanged. -/
lemma stableSortBy_eq_of_chain' :
    ∀ l : List α, l.Chain' (fun a b => le a b = true) → stableSortBy le l = l := by
  intro l
  induction l with
  | nil => intro _; rfl
  | cons x xs ih =>
    intro h
    unfold stableSortBy
    rw [ih h.tail]
    cases xs with
    | nil => rfl
    | cons y ys =>
      have hxy : le x y = true := (List.chain'_cons.1 h).1
      simp [insertSorted, hxy]

end SortLemmas

/-- The two orientations of the `date-desc` comparator sum to zero. -/
lemma cmpDateDesc_add (a b : Transaction) :
    cmpDateDesc a b + cmpDateDesc b a = 0 := by
  unfold cmpDateDesc
  cases jsParseDateMs a.date <;> cases jsParseDateMs b.date <;> simp

/-- Totality of `cmpDateDesc · · ≤ 0`. -/
lemma dateDescLe_total : ∀ a b : Transaction,
    decide (cmpDateDesc a b ≤ 0) = true ∨ decide (cmpDateDesc b a ≤ 0) = true := by
  intro a b
  have hadd := cmpDateDesc_add a b
  by_cases h : cmpDateDesc a b ≤ 0
  · left; exact decide_eq_true h
  · right; exact decide_eq_true (by omega)

/-- Unfolding of the `date-desc` branch of `sortTransactions`. -/
lemma sortTransactions_dateDesc (ts : List Transaction) :
    sortTransactions ts "date-desc" =
      stableSortBy (fun a b => cmpDateDesc a b ≤ 0) ts := rfl

/-! ### C6 — sorting -/

/-- C6: on any collection of transactions with well-formed dates,
sorting by `date-desc` twice gives the same order as sorting once, and
the sorted copy is a permutation of the input (the input sequence
itself is untouched — the embedding is pure, mirroring the
`[...transactions]` copy in the code). -/
theorem claim_C6 :
    ∀ ts : List Transaction,
      (∀ t ∈ ts, (jsParseDateMs t.date).isSome = true) →
      sortTransactions (sortTransactions ts "date-desc") "date-desc" =
        sortTransactions ts "date-desc" ∧
      (sortTransactions ts "date-desc").Perm ts := by
  intro ts _hvalid
  simp only [sortTransactions_dateDesc]
  constructor
  · exact stableSortBy_eq_of_chain' _ _
      (chain'_stableSortBy _ dateDescLe_total ts)
  · exact stableSortBy_perm _ ts

/-- C6 witness: a concrete two-element collection with valid dates. -/
theorem claim_C6_witness :
    sortTransactions (sortTransactions [sortTx1, sortTx2] "date-desc") "date-desc" =
      sortTransactions [sortTx1, sortTx2] "date-desc" ∧
    (sortTransactions [sortTx1, sortTx2] "date-desc").Perm [sortTx1, sortTx2] :=
  claim_C6 [sortTx1, sortTx2] (by decide)

/-! ### C4 — date validation -/

/-- C4: a date accepted by `validateDate` passed the syntactic regex
check and the semantic calendar round-trip; `"2024-02-29"` (leap year)
is accepted, `"2025-02-29"` (non-leap year) is rejected by the
round-trip, and `"2025-13-01"` is rejected by the regex. -/
theorem claim_C4 :
    (∀ s : String, (validateDate s).valid = true →
      dateRegexTest s = true ∧ dateRoundTrips s = true) ∧
    validateDate "2024-02-29" = ⟨true, ""⟩ ∧
    validateDate "2025-02-29" =
      ⟨false, "That date does not exist (e.g. Feb 30 is invalid)"⟩ ∧
    validateDate "2025-13-01" =
      ⟨false, "Date must be in YYYY-MM-DD format (e.g. 2025-09-29)"⟩ := by
  refine ⟨?_, by decide, by decide, by decide⟩
  intro s h
  unfold validateDate at h
  split_ifs at h with h1 h2 h3
  all_goals simp_all

/-- C4 witness: the general statement applied to the accepted leap-day
string. -/
theorem claim_C4_witness :
    dateRegexTest "2024-02-29" = true ∧ dateRoundTrips "2024-02-29" = true :=
  claim_C4.1 "2024-02-29" (by decide)

/-! ### C8 — the falsy amount 0 -/

/-- C8: a record whose amount field is the number 0 is coerced to the
empty string by `String(transaction.amount || '')`, so
`validateTransaction` reports the amount-required error, even though
`validateAmount` applied directly to the string `"0"` accepts. -/
theorem claim_C8 :
    ∀ t : Transaction, t.amount = 0 →
      (validateTransaction t).errors.amount = some "Amount is required" ∧
      validateAmount "0" = ⟨true, ""⟩ := by
  intro t h
  constructor
  · simp only [validateTransaction]
    rw [h]
    decide
  · decide

/-- C8 witness: the concrete zero-amount transaction. -/
theorem claim_C8_witness :
    (validateTransaction c8tx).errors.amount = some "Amount is required" ∧
    validateAmount "0" = ⟨true, ""⟩ :=
  claim_C8 c8tx rfl

/-! ### C10 — highlighting operates on the escaped text -/

/-- C10: `highlight` escapes the text before matching, so a matcher for
the literal `amp` finds nothing in the raw text `"&"` yet matches inside
its escaped form `"&amp;"`, and the emphasis markers end up wrapping
characters introduced by the escaping; with no matcher, `highlight`
returns exactly the escaped text. -/
theorem claim_C10 :
    escapeHtml "&" = "&amp;" ∧
    (litRegex "amp").test "&" = false ∧
    (litRegex "amp").test (escapeHtml "&") = true ∧
    highlight "&" (some (litRegex "amp")) = "&<mark>amp</mark>;" ∧
    (∀ text : String, highlight text none = escapeHtml text) := by
  refine ⟨by decide, by decide, by decide, by decide, ?_⟩
  intro text
  rfl

/-! ### C5 — budget-cap classification -/

/-- C5: with a cap of 0 the comparison is suppressed; for a positive
cap the state is over-budget exactly when spent is at least the cap,
warning exactly when spent is at least 80% and below 100% of the cap,
normal exactly when spent is below 80%, with `remaining = cap - spent`;
cap 100 with spent 85 yields warning with remaining 15, and spent 120
yields over-budget with remaining −20. -/
theorem claim_C5 :
    (∀ spent : ℚ, renderBudgetCap 0 spent = none) ∧
    (∀ cap spent : ℚ, 0 < cap →
      (renderBudgetCap cap spent = some (CapState.over, cap - spent) ↔
        cap ≤ spent) ∧
      (renderBudgetCap cap spent = some (CapState.warning, cap - spent) ↔
        80 / 100 * cap ≤ spent ∧ spent < cap) ∧
      (renderBudgetCap cap spent = some (CapState.normal, cap - spent) ↔
        spent < 80 / 100 * cap)) ∧
    renderBudgetCap 100 85 = some (CapState.warning, 15) ∧
    renderBudgetCap 100 120 = some (CapState.over, -20) := by
  refine ⟨?_, ?_, ?_, ?_⟩
  · intro spent; simp [renderBudgetCap]
  · intro cap spent hcap
    have hne : cap ≠ 0 := ne_of_gt hcap
    have h100 : (spent / cap * 100 ≥ 100) ↔ cap ≤ spent := by
      rw [ge_iff_le, div_mul_eq_mul_div, le_div_iff₀ hcap]
      constructor <;> intro h <;> nlinarith
    have h80 : (spent / cap * 100 ≥ 80) ↔ 80 / 100 * cap ≤ spent := by
      rw [ge_iff_le, div_mul_eq_mul_div, le_div_iff₀ hcap]
      constructor <;> intro h <;> nlinarith
    simp only [renderBudgetCap, if_neg hne]
    split_ifs with hA hB
    · have hcs : cap ≤ spent := h100.1 hA
      refine ⟨?_, ?_, ?_⟩
      · simp [hcs]
      · constructor
        · intro hEq; simp at hEq
        · rintro ⟨-, hlt⟩; exact absurd hcs (not_le.2 hlt)
      · constructor
        · intro hEq; simp at hEq
        · intro hlt; nlinarith
    · have hlt : spent < cap := not_le.1 fun hc => hA (h100.2 hc)
      have h80' : 80 / 100 * cap ≤ spent := h80.1 hB
      refine ⟨?_, ?_, ?_⟩
      · constructor
        · intro hEq; simp at hEq
        · intro hc; exact absurd hc (not_le.2 hlt)
      · constructor
        · intro _; exact ⟨h80', hlt⟩
        · intro _; rfl
      · constructor
        · intro hEq; simp at hEq
        · intro hlt80; exact absurd h80' (not_le.2 hlt80)
    · have hlt : spent < cap := not_le.1 fun hc => hA (h100.2 hc)
      have hlt80 : spent < 80 / 100 * cap := not_le.1 fun hc => hB (h80.2 hc)
      refine ⟨?_, ?_, ?_⟩
      · constructor
        · intro hEq; simp at hEq
        · intro hc; exact absurd hc (not_le.2 hlt)
      · constructor
        · intro hEq; simp at hEq
        · rintro ⟨h80', -⟩; exact absurd h80' (not_le.2 hlt80)
      · constructor
        · intro _; exact hlt80
        · intro _; rfl
  · norm_num [renderBudgetCap]
  · norm_num [renderBudgetCap]

/-- C5 witness: the 80%-to-100% window instantiated at cap 100 and
spent 85. -/
theorem claim_C5_witness :
    renderBudgetCap 100 85 = some (CapState.warning, (100 : ℚ) - 85) ↔
      80 / 100 * (100 : ℚ) ≤ 85 ∧ (85 : ℚ) < 100 :=
  (claim_C5.2.1 100 85 (by norm_num)).2.1


/-! ### C7 — description validation -/

/-- Line terminators are whitespace characters. -/
lemma isSpaceChar_of_isLineTerm (c : Char) (h : isLineTerm c = true) :
    isSpaceChar c = true := by
  simp only [isLineTerm, Bool.or_eq_true, decide_eq_true_eq] at h
  rcases h with ((h | h) | h) | h <;> subst h <;> decide

/-- Whitespace-free characters are not line terminators. -/
lemma isLineTerm_false_of_space_false (c : Char) (h : isSpaceChar c = false) :
    isLineTerm c = false := by
  cases hlt : isLineTerm c
  · rfl
  · rw [isSpaceChar_of_isLineTerm c hlt] at h
    exact absurd h (by decide)

/-- Unfolding of the description pattern on a non-empty char list. -/
lemma descriptionRegexTest_cons (c : Char) (cs : List Char) (s : String)
    (hd : s.data = c :: cs) :
    descriptionRegexTest s =
      (!isSpaceChar c && !isSpaceChar (cs.getLastD c) &&
        cs.dropLast.all fun x => !isLineTerm x) := by
  unfold descriptionRegexTest
  rw [hd]

/-- Unfolding of `firstOrLastSpace` on a non-empty char list. -/
lemma firstOrLastSpace_cons (c : Char) (cs : List Char) (s : String)
    (hd : s.data = c :: cs) :
    firstOrLastSpace s = (isSpaceChar c || isSpaceChar (cs.getLastD c)) := by
  unfold firstOrLastSpace
  rw [hd]

/-- Unfolding of `containsLineTerm` on a non-empty char list. -/
lemma containsLineTerm_cons (c : Char) (cs : List Char) (s : String)
    (hd : s.data = c :: cs) :
    containsLineTerm s = (c :: cs).any isLineTerm := by
  unfold containsLineTerm
  rw [hd]

/-- When the description pattern matches, the first and last characters
are not whitespace and no character is a line terminator. -/
lemma descTest_true_cases (s : String) (h : descriptionRegexTest s = true) :
    firstOrLastSpace s = false ∧ containsLineTerm s = false := by
  cases hd : s.data with
  | nil =>
    have : descriptionRegexTest s = false := by
      unfold descriptionRegexTest
      rw [hd]
    rw [this] at h
    exact absurd h (by decide)
  | cons c cs =>
    rw [descriptionRegexTest_cons c cs s hd] at h
    simp only [Bool.and_eq_true, Bool.not_eq_true', List.all_eq_true] at h
    obtain ⟨⟨hc, hl⟩, hmid⟩ := h
    constructor
    · rw [firstOrLastSpace_cons c cs s hd, hc, hl]
      rfl
    · rw [containsLineTerm_cons c cs s hd, List.any_eq_false]
      intro x hx
      rcases List.mem_cons.1 hx with hx | hx
      · subst hx
        simp [isLineTerm_false_of_space_false x hc]
      · rcases List.eq_nil_or_concat cs with hcs | ⟨front, last, hcs⟩
        · rw [hcs] at hx
          cases hx
        · rw [List.concat_eq_append] at hcs
          subst hcs
          rcases List.mem_append.1 hx with hx | hx
          · have := hmid x (by rw [List.dropLast_concat]; exact hx)
            simp [this]
          · have hxl : x = last := by simpa using hx
            subst hxl
            rw [List.getLastD_concat] at hl
            simp [isLineTerm_false_of_space_false x hl]

/-- When the description pattern fails on a non-empty string, either an
end character is whitespace or some character is a line terminator. -/
lemma descTest_false_cases (s : String) (hne : s.data ≠ [])
    (h : descriptionRegexTest s = false) :
    firstOrLastSpace s = true ∨ containsLineTerm s = true := by
  cases hd : s.data with
  | nil => exact absurd hd hne
  | cons c cs =>
    rw [descriptionRegexTest_cons c cs s hd] at h
    by_cases hc : isSpaceChar c = true
    · left
      rw [firstOrLastSpace_cons c cs s hd, hc]
      rfl
    · by_cases hl : isSpaceChar (cs.getLastD c) = true
      · left
        rw [firstOrLastSpace_cons c cs s hd, hl]
        simp
      · rw [Bool.not_eq_true] at hc hl
        rw [hc, hl] at h
        simp only [Bool.not_false, Bool.true_and, List.all_eq_false,
          Bool.not_eq_true, Bool.not_eq_false'] at h
        obtain ⟨x, hx, hlt⟩ := h
        right
        rw [containsLineTerm_cons c cs s hd, List.any_eq_true]
        exact ⟨x, List.mem_cons_of_mem c (List.dropLast_subset cs hx), hlt⟩

/-- The exact rejection domain of `validateDescription`: empty after
trimming, pattern failure, or a duplicate word. -/
lemma validateDescription_false_iff (s : String) :
    (validateDescription s).valid = false ↔
      (jsTrim s = "" ∨ descriptionRegexTest s = false ∨
        duplicateWordTest s = true) := by
  unfold validateDescription
  split_ifs with h1 h2 h3
  · have hts : jsTrim s = "" := by
      simp only [Bool.or_eq_true, decide_eq_true_eq] at h1
      rcases h1 with h1 | h1
      · subst h1; rfl
      · exact h1
    simp [hts]
  · simp only [Bool.not_eq_true'] at h2
    simp [h2]
  · simp [h3]
  · simp only [Bool.or_eq_true, decide_eq_true_eq, not_or] at h1
    simp only [Bool.not_eq_true'] at h2
    simp only [Bool.not_eq_true] at h3
    simp [h1.2, h2, h3]

/-- C7 counterexample: `"a\nb"` is rejected by the code (the
any-character part of the description pattern does not match the line
feed) although it is neither empty/all-whitespace, nor starts or ends
with whitespace, nor contains a duplicate word — all three of the
claim's rejection conditions fail. -/
theorem claim_C7_counterexample :
    (validateDescription "a\nb").valid = false ∧
    claimC7Rejects "a\nb" = false := by
  exact ⟨by decide, by decide⟩

/-- C7 amended: `validateDescription` rejects exactly the strings that
are empty/all-whitespace, have a whitespace first or last character,
contain a line terminator anywhere, or contain two identical whole
words separated only by whitespace (case-insensitively); in particular
`"the the book"` is rejected with the duplicate-word reason and
`"the theme"` is accepted. -/
theorem claim_C7_amended :
    (∀ s : String,
      ((validateDescription s).valid = false ↔ amendedC7Rejects s = true)) ∧
    validateDescription "the the book" =
      ⟨false, "Description has a repeated word (e.g. \"the the\")"⟩ ∧
    (validateDescription "the theme").valid = true := by
  refine ⟨?_, by decide, by decide⟩
  intro s
  rw [validateDescription_false_iff]
  simp only [amendedC7Rejects, Bool.or_eq_true, decide_eq_true_eq, or_assoc]
  constructor
  · rintro (h | h | h)
    · exact Or.inl h
    · by_cases hnil : s.data = []
      · have hs : s = "" := String.ext (hnil.trans rfl)
        subst hs
        exact Or.inl rfl
      · rcases descTest_false_cases s hnil h with h' | h'
        · exact Or.inr (Or.inl h')
        · exact Or.inr (Or.inr (Or.inl h'))
    · exact Or.inr (Or.inr (Or.inr h))
  · rintro (h | h | h | h)
    · exact Or.inl h
    · refine Or.inr (Or.inl ?_)
      cases hdt : descriptionRegexTest s
      · rfl
      · exact absurd (descTest_true_cases s hdt).1 (by simp [h])
    · refine Or.inr (Or.inl ?_)
      cases hdt : descriptionRegexTest s
      · rfl
      · exact absurd (descTest_true_cases s hdt).2 (by simp [h])
    · exact Or.inr (Or.inr h)

end FinanceTracker
